import Mathlib

/-!
Verification of the reconciliation core of maorfr/vault-manager.

The embedding covers:
* the top-level configuration registry (`toplevel/toplevel.go`:
  `RegisterConfiguration`, `Apply`);
* the generic item-diffing engine (`vault.DiffItems`, modelled from the
  specification because the `vault` package sources are not part of the
  given sources);
* the audit-device domain handler (`entry`, `config.Apply`, `asItems`).

Go maps from string keys are modelled as association lists; the Go
`panic` / `logrus.Fatal` outcomes are modelled as explicit `Except`
errors or dedicated action constructors.  The side effects of the audit
handler's `Apply` (log reports and remote enable/disable calls) are
modelled as a trace of actions.
-/

namespace VaultManager

/-! ## Registry (`toplevel/toplevel.go`) -/

/-- Outcome of `toplevel.Apply`: either the fatal "failed to find
top-level configuration" log (carrying the requested name), or a single
dispatch to the stored handler with the configuration bytes and the
dry-run flag passed through unchanged. -/
inductive ApplyResult (C : Type) where
  | fatalNotFound (name : String)
  | dispatch (c : C) (cfg : List Nat) (dryRun : Bool)
  deriving DecidableEq

/-- `strings.ToLower`, modelled character-wise: every character of the
string is lower-cased (for the ASCII names used by the program this is
exactly Go's behavior). -/
def lowerString (s : String) : String :=
  ⟨s.data.map Char.toLower⟩

/-- `toplevel.RegisterConfiguration`.  The registry map
`configs : map[string]Configuration` is an association list; a `nil`
handler argument is `none`; each Go `panic` is an `.error` carrying the
panic message.  On success the handler is stored under the lower-cased
name. -/
def registerConfiguration {C : Type} (configs : List (String × C))
    (name : String) (c : Option C) : Except String (List (String × C)) :=
  if name = "" then
    .error "toplevel: could not register a Configuration with an empty name"
  else
    match c with
    | none => .error "toplevel: could not register a nil Configuration"
    | some c =>
      let name := lowerString name
      if (configs.lookup name).isSome then
        .error ("toplevel: RegisterConfiguration called twice for " ++ name)
      else
        .ok ((name, c) :: configs)

/-- `toplevel.Apply`: looks the requested name up in the registry map
verbatim (`configs[name]`, no lower-casing); if absent it fails fatally
with the requested name, otherwise it dispatches to the stored handler,
passing `cfg` and `dryRun` through unchanged. -/
def applyTop {C : Type} (configs : List (String × C)) (name : String)
    (cfg : List Nat) (dryRun : Bool) : ApplyResult C :=
  match configs.lookup name with
  | none => .fatalNotFound name
  | some c => .dispatch c cfg dryRun

/-! ## Diff engine (`vault.DiffItems`) -/

/-- Modelled from the spec: `vault.DiffItems` is not among the given
sources.  Per §4.2 of the specification: an item `d` of `desired` goes
to `toWrite` when no observed item shares its key, or the (unique)
observed item with its key is not `Equals` to it; an item `o` of
`observed` goes to `toDelete` when no desired item both shares its key
and is `Equals` to it.  Relative order follows `desired` resp.
`observed`.  `key` and `eq` stand for the Item contract's `Key()` and
`Equals`. -/
def diffItems {α : Type} (key : α → String) (eq : α → α → Bool)
    (desired observed : List α) : List α × List α :=
  let toWrite := desired.filter (fun d =>
    match observed.find? (fun o => key o == key d) with
    | none => true
    | some o => !(eq d o))
  let toDelete := observed.filter (fun o =>
    !(desired.any (fun d => key d == key o && eq d o)))
  (toWrite, toDelete)

/-! ## Audit domain handler (`pkg/audit`, given as `src/unnamed/part_000`) -/

/-- The audit handler's `entry` struct: `Path`, `Type`, `Description` and
the `Options` string map (modelled as an association list). -/
structure Entry where
  path : String
  type : String
  description : String
  options : List (String × String)
  deriving DecidableEq

/-- Modelled from the spec: `vault.EqualPathNames` is not among the
given sources.  The specification says nothing beyond path names being
compared for identity, so it is modelled as string equality of the two
path names. -/
def equalPathNames (a b : String) : Bool :=
  a == b

/-- Modelled from the spec: `vault.OptionsEqual` is not among the given
sources.  Per the specification, option maps compare equal when their
canonicalized (stringified) entries match; both maps here already hold
string values, so this is extensional equality of the two maps. -/
def optionsEqual (xs ys : List (String × String)) : Bool :=
  xs.all (fun kv => ys.lookup kv.1 == some kv.2) &&
    ys.all (fun kv => xs.lookup kv.1 == some kv.2)

/-- `entry.ambiguousOptions`: the `map[string]string` options copied
into a `map[string]interface{}`; every value is a string, so the copy is
the identity on the modelled map. -/
def Entry.ambiguousOptions (e : Entry) : List (String × String) :=
  e.options

/-- A value of interface type `vault.Item` as the audit handler sees it:
either an audit `entry`, or a value of some different concrete type
(carrying only the `Key()` its own implementation would report). -/
inductive DynItem where
  | auditEntry (e : Entry)
  | otherType (key : String)
  deriving DecidableEq

/-- `entry.Key`: returns `e.Path`. -/
def Entry.key (e : Entry) : String :=
  e.path

/-- `entry.Equals`: the received `interface{}` value is type-asserted to
`entry`; when the assertion fails (`!ok`) the result is `false`,
otherwise the fields are compared (paths via `vault.EqualPathNames`,
options via `vault.OptionsEqual` on the `ambiguousOptions` copies). -/
def Entry.equals (e : Entry) (i : DynItem) : Bool :=
  match i with
  | .otherType _ => false
  | .auditEntry e2 =>
    equalPathNames e.path e2.path &&
      e.type == e2.type &&
      e.description == e2.description &&
      optionsEqual e.ambiguousOptions e2.ambiguousOptions

/-- `Key()` of a `vault.Item`; only audit entries occur in the audit
handler's flow, an item of another concrete type reports its own key. -/
def DynItem.key : DynItem → String
  | .auditEntry e => e.key
  | .otherType k => k

/-- `Equals` of a `vault.Item`.  An audit entry compares via
`entry.Equals`; no item of another concrete type occurs in the audit
handler's flow, and such an item is never `Equals` to anything here. -/
def DynItem.equals : DynItem → DynItem → Bool
  | .auditEntry e, i => e.equals i
  | .otherType _, _ => false

/-- `asItems`: wraps each `entry` of the slice into a `vault.Item`
(starting from an empty non-nil slice and appending each element). -/
def asItems (xs : List Entry) : List DynItem :=
  xs.map .auditEntry

/-- One observable step of the audit handler's `Apply`: the two fatal
exits, the two dry-run report lines, and the two remote mutating calls
(`entry.enable`, `entry.disable`).  The assertion panic models the
`e.(entry)` type assertion on an item that is not an `entry`. -/
inductive AuditAction where
  | fatalDecode
  | fatalList
  | reportWrite (i : DynItem)
  | reportDelete (i : DynItem)
  | enableCall (e : Entry)
  | disableCall (e : Entry)
  | assertionPanic
  deriving DecidableEq

/-- The `e.(entry)` type assertion of the non-dry-run loops followed by
the remote call: an audit entry yields the call's action, any other
concrete type would panic. -/
def mutateAction (call : Entry → AuditAction) (i : DynItem) : AuditAction :=
  match i with
  | .auditEntry e => call e
  | .otherType _ => .assertionPanic

/-- `config.Apply` of the audit handler, as the trace of its observable
actions.  `decoded` is the outcome of `yaml.Unmarshal` on the
configuration bytes; `listed` is the outcome of `ListAudit` on the
remote client, `.ok none` standing for a successful call returning a
`nil` map and `.ok (some xs)` for a map adapted entry-for-entry.  Decode
or listing failure is fatal; otherwise the desired and observed slices
are diffed and either reported (dry run) or applied, writes first. -/
def configApply (decoded : Except Unit (List Entry))
    (listed : Except Unit (Option (List Entry))) (dryRun : Bool) :
    List AuditAction :=
  match decoded with
  | .error _ => [.fatalDecode]
  | .ok entries =>
    match listed with
    | .error _ => [.fatalList]
    | .ok enabledAudits =>
      let existingAudits : List Entry :=
        match enabledAudits with
        | none => []
        | some xs => xs
      let diffed :=
        diffItems DynItem.key DynItem.equals (asItems entries)
          (asItems existingAudits)
      if dryRun then
        diffed.1.map .reportWrite ++ diffed.2.map .reportDelete
      else
        diffed.1.map (mutateAction .enableCall) ++
          diffed.2.map (mutateAction .disableCall)

/-! ## Registry theorems -/

/-- A registration attempt panics (aborts the process) exactly when
`registerConfiguration` returns an error. -/
def registerPanics {C : Type} (configs : List (String × C)) (name : String)
    (c : Option C) : Bool :=
  match registerConfiguration configs name c with
  | .error _ => true
  | .ok _ => false

lemma registerConfiguration_ok {C : Type} (cs : List (String × C))
    (name : String) (h : C) (hname : name ≠ "")
    (hdup : (cs.lookup (lowerString name)).isSome = false) :
    registerConfiguration cs name (some h) = .ok (((lowerString name), h) :: cs) := by
  simp [registerConfiguration, hname, hdup]

lemma registerConfiguration_ok_inv {C : Type} {cs cs' : List (String × C)}
    {name : String} {h : C}
    (hreg : registerConfiguration cs name (some h) = .ok cs') :
    cs' = ((lowerString name), h) :: cs := by
  by_cases h0 : name = ""
  · simp [registerConfiguration, h0] at hreg
  · by_cases h1 : (cs.lookup (lowerString name)).isSome
    · simp [registerConfiguration, h0, h1] at hreg
    · rw [registerConfiguration_ok cs name h h0 (Bool.eq_false_iff.mpr h1)] at hreg
      exact (Except.ok.inj hreg).symm

/-- C1 (counterexample): registering `"A"` succeeds and stores the
handler under `"a"`, yet `Apply` with the registered spelling `"A"`
itself — a case variant of `"A"` — fails fatally instead of
dispatching: `toplevel.Apply` looks the requested name up verbatim,
without lower-casing it. -/
theorem apply_lookup_not_case_insensitive :
    registerConfiguration ([] : List (String × Unit)) "A" (some ()) =
      .ok [("a", ())] ∧
    applyTop [("a", ())] "A" [] true = .fatalNotFound "A" := by
  constructor <;> rfl

/-- C1 (amended): after `RegisterConfiguration(name, handler)` succeeds,
`Apply(v, cfg, dryRun)` finds and dispatches to that handler exactly
when `v` equals `lower(name)`; for any other requested name — including
case variants of `name` that are not fully lower-cased — the lookup
behaves as before the registration (and so fails fatally when `v` is
otherwise unregistered). -/
theorem apply_dispatches_exactly_on_lowercased_name {C : Type}
    (cs : List (String × C)) (name : String) (h : C)
    (cs' : List (String × C)) (cfg : List Nat) (dry : Bool) (v : String)
    (hreg : registerConfiguration cs name (some h) = .ok cs') :
    applyTop cs' v cfg dry =
      if v = (lowerString name) then .dispatch h cfg dry
      else applyTop cs v cfg dry := by
  rw [registerConfiguration_ok_inv hreg]
  by_cases hv : v = (lowerString name)
  · simp [applyTop, List.lookup, hv]
  · simp [applyTop, List.lookup, beq_eq_false_iff_ne.mpr hv, hv]

/-- Witness for C1 (amended) at a concrete registration: after
registering `"A"`, the lower-cased variant `"a"` dispatches. -/
theorem apply_dispatches_exactly_on_lowercased_name_witness :
    applyTop [("a", ())] "a" [] true =
      if "a" = lowerString "A" then ApplyResult.dispatch () [] true
      else applyTop ([] : List (String × Unit)) "a" [] true :=
  apply_dispatches_exactly_on_lowercased_name [] "A" () [("a", ())] [] true
    "a" (by rfl)

/-- C4: `RegisterConfiguration(name, handler)` panics if and only if the
name is empty, the handler is `nil`, or `lower(name)` already has a
registered entry (so a duplicate differing only in case also aborts);
otherwise it stores the handler under `lower(name)`. -/
theorem register_panics_iff {C : Type} (cs : List (String × C))
    (name : String) (c : Option C) (h : C) :
    (registerPanics cs name c = true ↔
      (name = "" ∨ c = none ∨ (cs.lookup (lowerString name)).isSome = true)) ∧
    (c = some h → name ≠ "" → (cs.lookup (lowerString name)).isSome = false →
      registerConfiguration cs name c = .ok (((lowerString name), h) :: cs)) := by
  constructor
  · by_cases h0 : name = ""
    · simp [registerPanics, registerConfiguration, h0]
    · cases c with
      | none => simp [registerPanics, registerConfiguration, h0]
      | some c0 =>
        by_cases h1 : (cs.lookup (lowerString name)).isSome
        · simp [registerPanics, registerConfiguration, h0, h1]
        · have hok := registerConfiguration_ok cs name c0 h0
            (Bool.eq_false_iff.mpr h1)
          simp [registerPanics, hok, h0, h1]
  · rintro rfl hname hdup
    exact registerConfiguration_ok cs name h hname hdup

/-- Witness for C4 at concrete inputs: registering `"A"` in the empty
registry does not panic and stores the handler under `"a"`, while a
second registration of `"a"` panics. -/
theorem register_panics_iff_witness :
    registerConfiguration ([] : List (String × Unit)) "A" (some ()) =
      .ok [("a", ())] ∧
    (registerPanics [("a", ())] "a" (some ()) = true ↔
      ("a" = "" ∨ (some () = none ∨
        (List.lookup (lowerString "a") [("a", ())]).isSome = true))) :=
  ⟨(register_panics_iff [] "A" (some ()) ()).2 rfl (by decide) (by decide),
    by
      have := (register_panics_iff [("a", ())] "a" (some ()) ()).1
      simpa using this⟩

/-- C5: `toplevel.Apply` is pure dispatch: when the requested name has
no entry in the registry map it fails fatally with that name, and when
the name has a stored handler, the outcome is the single dispatch to
that handler with the configuration bytes and the dry-run flag passed
through unchanged (no decoding, diffing or validation happens in
`applyTop`). -/
theorem apply_is_pure_dispatch {C : Type} (cs : List (String × C))
    (name : String) (cfg : List Nat) (dry : Bool) (h : C) :
    (cs.lookup name = none → applyTop cs name cfg dry = .fatalNotFound name) ∧
    (cs.lookup name = some h → applyTop cs name cfg dry = .dispatch h cfg dry) := by
  constructor <;> intro hl <;> simp [applyTop, hl]

/-- Witness for C5: the missing name `"missing"` aborts with that name;
the registered name `"a"` dispatches with bytes and flag unchanged. -/
theorem apply_is_pure_dispatch_witness :
    applyTop [("a", ())] "missing" [7] true = .fatalNotFound "missing" ∧
    applyTop [("a", ())] "a" [7] true = .dispatch () [7] true :=
  ⟨(apply_is_pure_dispatch [("a", ())] "missing" [7] true ()).1 (by rfl),
    (apply_is_pure_dispatch [("a", ())] "a" [7] true ()).2 (by rfl)⟩

/-! ## Diff engine theorems -/

lemma find?_key_self {α : Type} (key : α → String) :
    ∀ (l : List α), (l.map key).Nodup → ∀ d ∈ l,
      l.find? (fun o => key o == key d) = some d := by
  intro l
  induction l with
  | nil => intro _ d hd; exact absurd hd (List.not_mem_nil d)
  | cons a t ih =>
    intro hnd d hd
    rw [List.map_cons, List.nodup_cons] at hnd
    rcases List.mem_cons.mp hd with rfl | hdt
    · exact List.find?_cons_of_pos t (by simp)
    · have hka : (key a == key d) = false := by
        refine beq_eq_false_iff_ne.mpr fun hcontra => ?_
        exact hnd.1 (hcontra ▸ List.mem_map_of_mem key hdt)
      rw [List.find?_cons_of_neg t (by simp [hka]), ih hnd.2 d hdt]

/-- C2 (drift replacement): when a desired item `d` and an observed item
`o` share a key but are not `Equals`, `DiffItems` puts `d` into
`toWrite` and `o` into `toDelete`; the pair is never treated as already
converged. -/
theorem diffItems_drift_replaces {α : Type} (key : α → String)
    (eq : α → α → Bool) (desired observed : List α) (d o : α)
    (hd : d ∈ desired) (ho : o ∈ observed)
    (hnd : (desired.map key).Nodup) (hno : (observed.map key).Nodup)
    (hk : key d = key o) (hne : eq d o = false) :
    d ∈ (diffItems key eq desired observed).1 ∧
      o ∈ (diffItems key eq desired observed).2 := by
  constructor
  · refine List.mem_filter.mpr ⟨hd, ?_⟩
    have : observed.find? (fun x => key x == key d) = some o := by
      rw [hk]; exact find?_key_self key observed hno o ho
    simp [this, hne]
  · refine List.mem_filter.mpr ⟨ho, ?_⟩
    simp only [Bool.not_eq_eq_eq_not, Bool.not_true, List.any_eq_false]
    intro x hx hcontra
    simp only [Bool.and_eq_true, beq_iff_eq] at hcontra
    have hxd : x = d :=
      List.inj_on_of_nodup_map hnd hx hd (hcontra.1.trans hk.symm)
    rw [hxd, hne] at hcontra
    exact Bool.false_ne_true hcontra.2

/-- Witness for C2 at concrete items (pairs keyed by their first
component, compared by full equality): key `"k"` drifts. -/
theorem diffItems_drift_replaces_witness :
    ("k", 1) ∈ (diffItems (fun p : String × Nat => p.1)
        (fun a b => a == b) [("k", 1)] [("k", 2)]).1 ∧
      ("k", 2) ∈ (diffItems (fun p : String × Nat => p.1)
        (fun a b => a == b) [("k", 1)] [("k", 2)]).2 :=
  diffItems_drift_replaces (fun p => p.1) (fun a b => a == b)
    [("k", 1)] [("k", 2)] ("k", 1) ("k", 2) (by decide) (by decide)
    (by decide) (by decide) (by decide) (by decide)

/-- C3 (idempotence on a converged state): diffing a well-formed item
sequence (unique keys, `Equals` reflexive on its items) against itself
yields an empty `toWrite` and an empty `toDelete`. -/
theorem diffItems_self_empty {α : Type} (key : α → String)
    (eq : α → α → Bool) (X : List α) (hnd : (X.map key).Nodup)
    (hrefl : ∀ x ∈ X, eq x x = true) :
    diffItems key eq X X = ([], []) := by
  unfold diffItems
  refine Prod.ext ?_ ?_
  · simp only [List.filter_eq_nil_iff]
    intro a ha
    rw [find?_key_self key X hnd a ha]
    simp [hrefl a ha]
  · simp only [List.filter_eq_nil_iff]
    intro a ha
    have : X.any (fun d => key d == key a && eq d a) = true :=
      List.any_eq_true.mpr ⟨a, ha, by simp [hrefl a ha]⟩
    simp [this]

/-- Witness for C3 at a concrete two-item sequence. -/
theorem diffItems_self_empty_witness :
    diffItems (fun s : String => s) (fun a b => a == b) ["p1", "p2"]
      ["p1", "p2"] = ([], []) :=
  diffItems_self_empty (fun s => s) (fun a b => a == b) ["p1", "p2"]
    (by decide) (by decide)

/-- C6 (identity on the non-empty side): with `observed = []` the write
set is exactly `desired` in order and nothing is deleted; with
`desired = []` the delete set is exactly `observed` in order and nothing
is written.  (The claim's distinct-keys hypothesis is not even needed.) -/
theorem diffItems_empty_sides {α : Type} (key : α → String)
    (eq : α → α → Bool) (X Y : List α) :
    diffItems key eq X [] = (X, []) ∧ diffItems key eq [] Y = ([], Y) := by
  constructor
  · unfold diffItems
    simp
  · unfold diffItems
    simp

/-! ## Audit handler theorems -/

/-- An action is a mutating remote call exactly when it is an enable or
a disable of an audit device. -/
def isMutation : AuditAction → Bool
  | .enableCall _ => true
  | .disableCall _ => true
  | _ => false

/-- A concrete audit entry used to instantiate the theorems. -/
def sampleEntryA : Entry :=
  ⟨"audit1", "file", "da", [("path", "/tmp/a")]⟩

/-- A second concrete audit entry with a different key. -/
def sampleEntryB : Entry :=
  ⟨"audit2", "file", "db", []⟩

lemma all_not_mutation_map (f : DynItem → AuditAction)
    (hf : ∀ i, isMutation (f i) = false) (l : List DynItem) :
    (l.map f).all (fun a => !(isMutation a)) = true := by
  rw [List.all_eq_true]
  intro a ha
  rcases List.mem_map.mp ha with ⟨i, _, rfl⟩
  simp [hf]

/-- C7: in dry-run mode the audit handler's `Apply` issues no mutating
remote call on any input, and on the successful decode/list path its
trace is exactly one report line per item of `toWrite` followed by one
per item of `toDelete` — a complete report of every divergence. -/
theorem configApply_dry_run_reports_only (decoded : Except Unit (List Entry))
    (listed : Except Unit (Option (List Entry))) (es : List Entry)
    (la : Option (List Entry)) :
    (configApply decoded listed true).all (fun a => !(isMutation a)) = true ∧
    (decoded = .ok es → listed = .ok la →
      configApply decoded listed true =
        (diffItems DynItem.key DynItem.equals (asItems es)
            (asItems (la.getD []))).1.map AuditAction.reportWrite ++
          (diffItems DynItem.key DynItem.equals (asItems es)
            (asItems (la.getD []))).2.map AuditAction.reportDelete) := by
  constructor
  · cases decoded with
    | error u => rfl
    | ok es0 =>
      cases listed with
      | error u => rfl
      | ok la0 =>
        have htrace : configApply (.ok es0) (.ok la0) true =
            (diffItems DynItem.key DynItem.equals (asItems es0)
                (asItems (la0.getD []))).1.map AuditAction.reportWrite ++
              (diffItems DynItem.key DynItem.equals (asItems es0)
                (asItems (la0.getD []))).2.map AuditAction.reportDelete := by
          cases la0 <;> rfl
        rw [htrace, List.all_append,
          all_not_mutation_map AuditAction.reportWrite (fun i => rfl) _,
          all_not_mutation_map AuditAction.reportDelete (fun i => rfl) _]
        rfl
  · rintro rfl rfl
    cases la <;> rfl

/-- Witness for C7 at a concrete input: one desired entry, empty remote
listing; the dry-run trace is mutation-free and reports the entry. -/
theorem configApply_dry_run_reports_only_witness :
    (configApply (.ok [sampleEntryA]) (.ok none) true).all
        (fun a => !(isMutation a)) = true ∧
    configApply (.ok [sampleEntryA]) (.ok none) true =
      [AuditAction.reportWrite (.auditEntry sampleEntryA)] :=
  ⟨(configApply_dry_run_reports_only (.ok [sampleEntryA]) (.ok none)
      [sampleEntryA] none).1,
    by
      have h := (configApply_dry_run_reports_only (.ok [sampleEntryA])
        (.ok none) [sampleEntryA] none).2 rfl rfl
      rw [h]; rfl⟩

/-- C8: `entry.Equals` is total across concrete types — on any item
whose concrete type is not `entry`, the failed type assertion is
handled and the result is `false` (no panic propagates; the function is
total). -/
theorem entry_equals_other_type_false (e : Entry) (i : DynItem)
    (h : ∀ e2 : Entry, i ≠ DynItem.auditEntry e2) :
    e.equals i = false := by
  cases i with
  | auditEntry e2 => exact absurd rfl (h e2)
  | otherType k => rfl

/-- Witness for C8: a concrete entry compared with an item of a
different concrete type. -/
theorem entry_equals_other_type_false_witness :
    Entry.equals sampleEntryA (DynItem.otherType "x") = false :=
  entry_equals_other_type_false sampleEntryA (.otherType "x")
    (fun _ h => DynItem.noConfusion h)

lemma getElem?_map_mutate {call : Entry → AuditAction} {l : List DynItem}
    {i : Nat} {a : AuditAction}
    (h : (l.map (mutateAction call))[i]? = some a) :
    (∃ e, a = call e) ∨ a = .assertionPanic := by
  rw [List.getElem?_map] at h
  cases hl : l[i]? with
  | none => rw [hl] at h; simp at h
  | some x =>
    rw [hl, Option.map_some'] at h
    cases x with
    | auditEntry e => exact Or.inl ⟨e, (Option.some.inj h).symm⟩
    | otherType k => exact Or.inr (Option.some.inj h).symm

/-- C9: in the non-dry-run audit `Apply`, every enable call appears in
the trace strictly before every disable call (the `toWrite` loop runs to
completion before the `toDelete` loop starts), so a key being replaced
is enabled before its stale observed form is disabled. -/
theorem configApply_writes_before_deletes (decoded : Except Unit (List Entry))
    (listed : Except Unit (Option (List Entry))) (i j : Nat) (e1 e2 : Entry)
    (hdis : (configApply decoded listed false)[i]? =
      some (.disableCall e1))
    (hen : (configApply decoded listed false)[j]? =
      some (.enableCall e2)) :
    j < i := by
  cases decoded with
  | error u =>
    have hfd : configApply (.error u) listed false = [.fatalDecode] := rfl
    rw [hfd] at hdis
    rcases i with _ | i <;> simp at hdis
  | ok es =>
    cases listed with
    | error u =>
      have hfl : configApply (.ok es) (.error u) false = [.fatalList] := rfl
      rw [hfl] at hdis
      rcases i with _ | i <;> simp at hdis
    | ok la =>
      have htrace : configApply (.ok es) (.ok la) false =
          (diffItems DynItem.key DynItem.equals (asItems es)
              (asItems (la.getD []))).1.map (mutateAction .enableCall) ++
            (diffItems DynItem.key DynItem.equals (asItems es)
              (asItems (la.getD []))).2.map (mutateAction .disableCall) := by
        cases la <;> rfl
      rw [htrace] at hdis hen
      set W := (diffItems DynItem.key DynItem.equals (asItems es)
        (asItems (la.getD []))).1.map (mutateAction .enableCall) with hW
      set D := (diffItems DynItem.key DynItem.equals (asItems es)
        (asItems (la.getD []))).2.map (mutateAction .disableCall) with hD
      have hjlt : j < W.length := by
        by_contra hge
        push_neg at hge
        rw [List.getElem?_append_right hge] at hen
        rw [hD] at hen
        rcases getElem?_map_mutate hen with ⟨e, he⟩ | he <;> simp at he
      have hile : W.length ≤ i := by
        by_contra hlt
        push_neg at hlt
        rw [List.getElem?_append_left hlt] at hdis
        rw [hW] at hdis
        rcases getElem?_map_mutate hdis with ⟨e, he⟩ | he <;> simp at he
      exact lt_of_lt_of_le hjlt hile

/-- Witness for C9: one entry to enable, one to disable; the enable is
at position 0, the disable at position 1, and the theorem yields
`0 < 1`. -/
theorem configApply_writes_before_deletes_witness :
    (configApply (.ok [sampleEntryA]) (.ok (some [sampleEntryB])) false)[1]? =
      some (.disableCall sampleEntryB) ∧
    (configApply (.ok [sampleEntryA]) (.ok (some [sampleEntryB])) false)[0]? =
      some (.enableCall sampleEntryA) ∧
    (0 : Nat) < 1 :=
  ⟨by rfl, by rfl,
    configApply_writes_before_deletes (.ok [sampleEntryA])
      (.ok (some [sampleEntryB])) 1 0 sampleEntryB sampleEntryA
      (by rfl) (by rfl)⟩

/-- C10: when the remote listing succeeds but returns a `nil` map, the
observed sequence handed to `DiffItems` is empty, so every decoded
desired entry lands in `toWrite`, `toDelete` is empty, and (shown here
on the dry-run trace) every decoded entry is reported as to-be-written
and nothing as to-be-deleted. -/
theorem configApply_nil_listing (entries : List Entry) :
    diffItems DynItem.key DynItem.equals (asItems entries)
        (asItems ([] : List Entry)) = (asItems entries, []) ∧
    configApply (.ok entries) (.ok none) true =
      (asItems entries).map AuditAction.reportWrite := by
  have hdiff : diffItems DynItem.key DynItem.equals (asItems entries)
      (asItems ([] : List Entry)) = (asItems entries, []) := by
    unfold diffItems
    simp [asItems]
  refine ⟨hdiff, ?_⟩
  show (diffItems DynItem.key DynItem.equals (asItems entries)
      (asItems ([] : List Entry))).1.map AuditAction.reportWrite ++
    (diffItems DynItem.key DynItem.equals (asItems entries)
      (asItems ([] : List Entry))).2.map AuditAction.reportDelete =
    (asItems entries).map AuditAction.reportWrite
  rw [hdiff]
  simp

end VaultManager
